import Mathlib

/-!
Verification of the host-side resource plane of the amazon-ecs-agent
repository: the ARN decomposer, the ENI state manager, the cgroup
controller, and the credential-spec task resource.  Each Go function is
shallowly embedded as an executable Lean definition; external
collaborators (netlink, S3, SSM, the filesystem) are passed in as
explicit oracle arguments so that the control flow of the embedded code
is exactly that of the source.
-/

/-! ## Association-list maps (Go `map[string]string` with insertion) -/

/-- Lookup in an association list, first match wins (Go map read). -/
def mapLookup : List (String × String) → String → Option String
  | [], _ => none
  | (k, v) :: rest, key => if k = key then some v else mapLookup rest key

/-- Insert into an association list, replacing an existing binding
(Go map write `m[k] = v`). -/
def mapInsert : List (String × String) → String → String → List (String × String)
  | [], k, v => [(k, v)]
  | (k', v') :: rest, k, v =>
    if k' = k then (k, v) :: rest else (k', v') :: mapInsert rest k v

theorem mapLookup_mapInsert_self (m : List (String × String)) (k v : String) :
    mapLookup (mapInsert m k v) k = some v := by
  induction m with
  | nil => simp [mapInsert, mapLookup]
  | cons p rest ih =>
    obtain ⟨k', v'⟩ := p
    by_cases h : k' = k
    · simp [mapInsert, h, mapLookup]
    · simp [mapInsert, h, mapLookup, ih]

theorem mapLookup_mapInsert_ne (m : List (String × String)) (k v key : String)
    (h : k ≠ key) : mapLookup (mapInsert m k v) key = mapLookup m key := by
  induction m with
  | nil => simp [mapInsert, mapLookup, h]
  | cons p rest ih =>
    obtain ⟨k', v'⟩ := p
    by_cases hk : k' = k
    · subst hk
      simp [mapInsert, mapLookup, h, ih]
    · by_cases hkey : k' = key
      · subst hkey
        simp [mapInsert, hk, mapLookup]
      · simp [mapInsert, hk, mapLookup, hkey, ih]

theorem mem_mapInsert (m : List (String × String)) (k v : String) (p : String × String) :
    p ∈ mapInsert m k v → p = (k, v) ∨ p ∈ m := by
  induction m with
  | nil => intro h; simpa [mapInsert] using h
  | cons q rest ih =>
    obtain ⟨k', v'⟩ := q
    intro h
    by_cases hk : k' = k
    · simp only [mapInsert, if_pos hk] at h
      rcases List.mem_cons.mp h with h | h
      · exact Or.inl h
      · exact Or.inr (List.mem_cons_of_mem _ h)
    · simp only [mapInsert, if_neg hk] at h
      rcases List.mem_cons.mp h with h | h
      · exact Or.inr (by simp [h])
      · rcases ih h with h' | h'
        · exact Or.inl h'
        · exact Or.inr (List.mem_cons_of_mem _ h')

/-! ## Character-list string primitives -/

/-- `strStartsWith s pre` is Go's `strings.HasPrefix` on character lists. -/
def strStartsWith : List Char → List Char → Bool
  | _, [] => true
  | [], _ :: _ => false
  | c :: cs, p :: ps => if c = p then strStartsWith cs ps else false

theorem strStartsWith_append (pre rest : List Char) :
    strStartsWith (pre ++ rest) pre = true := by
  induction pre with
  | nil => cases rest <;> rfl
  | cons c cs ih => simp [strStartsWith, ih]

theorem strStartsWith_iff (cs pre : List Char) :
    strStartsWith cs pre = true ↔ ∃ rest, cs = pre ++ rest := by
  constructor
  · intro h
    induction pre generalizing cs with
    | nil => exact ⟨cs, rfl⟩
    | cons p ps ih =>
      cases cs with
      | nil => simp [strStartsWith] at h
      | cons c cs' =>
        simp only [strStartsWith] at h
        split at h
        · next heq =>
          obtain ⟨rest, hrest⟩ := ih cs' h
          exact ⟨rest, by simp [heq, hrest]⟩
        · exact absurd h (by simp)
  · rintro ⟨rest, rfl⟩
    exact strStartsWith_append pre rest

/-- Split a character list at the first occurrence of `c`:
returns the part before it and, when found, the part after it. -/
def breakChar (c : Char) : List Char → List Char × Option (List Char)
  | [] => ([], none)
  | x :: xs =>
    if x = c then ([], some xs)
    else
      let r := breakChar c xs
      (x :: r.1, r.2)

theorem breakChar_some (c : Char) (cs pre post : List Char)
    (h : breakChar c cs = (pre, some post)) : cs = pre ++ c :: post := by
  induction cs generalizing pre with
  | nil => simp [breakChar] at h
  | cons x xs ih =>
    by_cases hx : x = c
    · simp [breakChar, hx] at h
      obtain ⟨h1, h2⟩ := h
      simp [← h1, h2, hx]
    · simp [breakChar, hx] at h
      obtain ⟨h1, h2⟩ := h
      rcases hr : breakChar c xs with ⟨pre', post'⟩
      rw [hr] at h1 h2
      simp at h1 h2
      cases post' with
      | none => simp at h2
      | some p' =>
        simp at h2
        subst h2
        have := ih pre' (by rw [hr])
        simp [← h1, this]

theorem breakChar_append (c : Char) (xs rest : List Char) (h : c ∉ xs) :
    breakChar c (xs ++ c :: rest) = (xs, some rest) := by
  induction xs with
  | nil => simp [breakChar]
  | cons x xs' ih =>
    have hx : x ≠ c := fun hc => h (by simp [hc])
    have hrec := ih (fun hm => h (List.mem_cons_of_mem _ hm))
    simp [breakChar, hx, hrec]

/-- Go `strings.SplitN(s, sep, n)` for a single-character separator. -/
def splitNChar (c : Char) : Nat → List Char → List (List Char)
  | 0, _ => []
  | 1, cs => [cs]
  | n + 2, cs =>
    match breakChar c cs with
    | (_, none) => [cs]
    | (pre, some post) => pre :: splitNChar c (n + 1) post

/-- Rejoin the pieces produced by `splitNChar` with the separator. -/
def joinSep (c : Char) : List (List Char) → List Char
  | [] => []
  | [x] => x
  | x :: y :: ys => x ++ c :: joinSep c (y :: ys)

theorem splitNChar_ne_nil (c : Char) (n : Nat) (cs : List Char) :
    splitNChar c (n + 1) cs ≠ [] := by
  cases n with
  | zero => simp [splitNChar]
  | succ m =>
    simp only [splitNChar]
    rcases h : breakChar c cs with ⟨pre, post⟩
    cases post <;> simp

theorem joinSep_cons (c : Char) (x : List Char) (l : List (List Char)) (h : l ≠ []) :
    joinSep c (x :: l) = x ++ c :: joinSep c l := by
  cases l with
  | nil => exact absurd rfl h
  | cons y ys => rfl

theorem joinSep_splitNChar (c : Char) (n : Nat) (cs : List Char) :
    joinSep c (splitNChar c (n + 1) cs) = cs := by
  induction n generalizing cs with
  | zero => rfl
  | succ m ih =>
    simp only [splitNChar]
    rcases h : breakChar c cs with ⟨pre, post⟩
    cases post with
    | none => rfl
    | some p =>
      rw [joinSep_cons c pre _ (splitNChar_ne_nil c m p), ih p]
      exact (breakChar_some c cs pre p h).symm

theorem splitNChar_block (c : Char) (n : Nat) (xs rest : List Char) (h : c ∉ xs) :
    splitNChar c (n + 2) (xs ++ c :: rest) = xs :: splitNChar c (n + 1) rest := by
  simp [splitNChar, breakChar_append c xs rest h]

/-! ## ARN decomposer (`arn.go`) -/

namespace Arn

/-- ARN captures the individual fields of an Amazon Resource Name. -/
structure ARN where
  Partition : String
  Service : String
  Region : String
  AccountID : String
  Resource : String
  deriving DecidableEq, Repr

def arnPrefixChars : List Char := ['a', 'r', 'n', ':']

def invalidPrefixMsg : String := "arn: invalid prefix"

def invalidSectionsMsg : String := "arn: not enough sections"

/-- `arn.Parse`: requires the literal `arn:` head, then splits into exactly
six colon-separated sections with a split limit of six (`strings.SplitN`). -/
def parse (s : String) : Except String ARN :=
  if strStartsWith s.data arnPrefixChars then
    match splitNChar ':' 6 s.data with
    | [_, p, sv, r, acc, res] => .ok ⟨⟨p⟩, ⟨sv⟩, ⟨r⟩, ⟨acc⟩, ⟨res⟩⟩
    | _ => .error invalidSectionsMsg
  else .error invalidPrefixMsg

/-- `ARN.String`: the canonical six-section representation. -/
def arnString (a : ARN) : String :=
  "arn:" ++ a.Partition ++ ":" ++ a.Service ++ ":" ++ a.Region ++ ":" ++
    a.AccountID ++ ":" ++ a.Resource

theorem strData_append (a b : String) : (a ++ b).data = a.data ++ b.data := rfl

theorem arnString_data (a : ARN) :
    (arnString a).data =
      ['a', 'r', 'n'] ++ ':' :: (a.Partition.data ++ ':' :: (a.Service.data ++
        ':' :: (a.Region.data ++ ':' :: (a.AccountID.data ++ ':' :: a.Resource.data)))) := by
  simp [arnString, strData_append]

end Arn

/-! ## Filepath basename (`filepath.Base`, slash separator) -/

/-- `filepath.Base`: empty path gives `.`; trailing separators are
stripped; the last path element is returned; an all-separator path gives
the separator itself.  Both call sites in the embedded code hand it
slash-separated names. -/
def filepathBase (s : String) : String :=
  if s.data = [] then "."
  else
    let cs := (s.data.reverse.dropWhile (fun c => c = '/')).reverse
    if cs = [] then "/"
    else ⟨(cs.reverse.takeWhile (fun c => ¬ c = '/')).reverse⟩

/-! ## ENI state manager (`agent/eni/manager.go`) -/

namespace Eni

/-- A kernel netlink link: attributes `Name` and `HardwareAddr.String()`. -/
structure Link where
  name : String
  mac : String
  deriving DecidableEq, Repr

/-- `ethPrefix` in `manager.go`. -/
def ethPrefixStr : String := "eth"

def invalidDeviceMsg : String := "Invalid Device Name"

def invalidMACMsg : String := "Invalid MAC Address"

/-- A hexadecimal digit as accepted by Go's `xtoi2`. -/
def isHexDigit (c : Char) : Bool :=
  c.isDigit || ('a' ≤ c && c ≤ 'f') || ('A' ≤ c && c ≤ 'F')

/-- Groups of two hex digits joined by `sep` (the colon/hyphen arm of
Go's `net.ParseMAC`). -/
def hexPairsSep (sep : Char) : List Char → Bool
  | [a, b] => isHexDigit a && isHexDigit b
  | a :: b :: s :: rest => isHexDigit a && isHexDigit b && s = sep && hexPairsSep sep rest
  | _ => false

/-- Groups of four hex digits joined by dots (the dot arm of `net.ParseMAC`). -/
def hexQuads : List Char → Bool
  | [a, b, c, d] => isHexDigit a && isHexDigit b && isHexDigit c && isHexDigit d
  | a :: b :: c :: d :: s :: rest =>
    isHexDigit a && isHexDigit b && isHexDigit c && isHexDigit d && s = '.' &&
      hexQuads rest
  | _ => false

/-- `isValidMACAddress` delegates to Go's `net.ParseMAC`: an EUI-48,
EUI-64 or 20-octet address, colon/hyphen-separated hex pairs or
dot-separated hex quads.  The length gates mirror `n ∈ {6, 8, 20}`. -/
def isValidMACAddress (s : String) : Bool :=
  let cs := s.data
  let n := cs.length
  if n < 14 then false
  else
    match cs[2]? with
    | some c2 =>
      if c2 = ':' || c2 = '-' then
        (n = 17 || n = 23 || n = 59) && hexPairsSep c2 cs
      else
        match cs[4]? with
        | some c4 => if c4 = '.' then (n = 14 || n = 19 || n = 49) && hexQuads cs else false
        | none => false
    | none => false

/-- `isValidDevice`: the device name must carry the configured head
(`strings.HasPrefix`). -/
def isValidDevice (deviceName pre : String) : Bool :=
  strStartsWith deviceName.data pre.data

/-- `addDeviceWithMACAddress`: validate both parameters, then record
`enis[MACAddress] = deviceName`; on a validation error the map is
untouched. -/
def addDeviceWithMACAddress (enis : List (String × String)) (deviceName MACAddress : String) :
    Except String (List (String × String)) :=
  if ¬ isValidDevice deviceName ethPrefixStr then .error invalidDeviceMsg
  else if ¬ isValidMACAddress MACAddress then .error invalidMACMsg
  else .ok (mapInsert enis MACAddress deviceName)

/-- `removeDeviceWithMACAddress`: validate the MAC, then delete its record. -/
def removeDeviceWithMACAddress (enis : List (String × String)) (mac : String) :
    Except String (List (String × String)) :=
  if ¬ isValidMACAddress mac then .error invalidMACMsg
  else .ok (enis.filter (fun p => ¬ p.1 = mac))

/-- `getMACAddress`: take the basename, then ask netlink (`LinkByName`,
passed here as the oracle `linkByName`) for the hardware address. -/
def getMACAddress (linkByName : String → Except String String) (dev : String) :
    Except String String :=
  linkByName (filepathBase dev)

/-- `addDevice`: computes the basename, but validates the RAW
`deviceName` argument against the `eth` head before using the basename
for the netlink lookup and the map update (`manager.go:185-200`). -/
def addDevice (enis : List (String × String)) (linkByName : String → Except String String)
    (deviceName : String) : Except String (List (String × String)) :=
  let device := filepathBase deviceName
  if ¬ isValidDevice deviceName ethPrefixStr then .error invalidDeviceMsg
  else
    match getMACAddress linkByName device with
    | .error e => .error e
    | .ok MACAddress => addDeviceWithMACAddress enis device MACAddress

/-- The create-event arm of `fsnotifyHandler`: it hands `evt.Name` (the
raw watcher path) to `addDevice` and discards any error, leaving the map
as it was. -/
def fsnotifyHandleCreate (enis : List (String × String))
    (linkByName : String → Except String String) (evtName : String) :
    List (String × String) :=
  match addDevice enis linkByName evtName with
  | .ok m => m
  | .error _ => enis

/-- `buildState`: record `(mac, name)` for every link whose name starts
with the `eth` head. -/
def buildState (links : List Link) : List (String × String) :=
  links.foldl
    (fun state l =>
      if strStartsWith l.name.data ethPrefixStr.data then mapInsert state l.mac l.name
      else state)
    []

/-- The removal pass of `reconcileENIs`: every record whose MAC is
absent from `currentState` is handed to `removeDeviceWithMACAddress`;
deletion during a Go map range visits each entry once, so the pass is a
filter.  A record whose MAC fails validation survives, because the
remove call errors out before deleting. -/
def removeStale (enis currentState : List (String × String)) : List (String × String) :=
  enis.filter (fun p => (mapLookup currentState p.1).isSome || ! isValidMACAddress p.1)

/-- The addition pass of `reconcileENIs`: every `currentState` entry
whose MAC is not yet known is handed to `addDeviceWithMACAddress`; a
failed add (invalid MAC) leaves the map unchanged. -/
def addNew (enis currentState : List (String × String)) : List (String × String) :=
  currentState.foldl
    (fun acc p =>
      if (mapLookup acc p.1).isSome then acc
      else
        match addDeviceWithMACAddress acc p.2 p.1 with
        | .ok m => m
        | .error _ => acc)
    enis

/-- `reconcileENIs`: the result of `LinkList` is the pair
`(links, linkListErr)`.  The source merely logs the error and keeps
going (`manager.go:130-133` has no early return), so the flag does not
influence the result: the stale-removal and addition passes always run
against `buildState links`. -/
def reconcileENIs (enis : List (String × String)) (links : List Link)
    (linkListErr : Bool) : List (String × String) :=
  let currentState := buildState links
  let afterRemove := removeStale enis currentState
  addNew afterRemove currentState

end Eni

/-! ## Cgroup controller (`agent/resources/cgroup/cgroup_controller_linux.go`) -/

namespace Cgroup

/-- `specs.LinuxResources`: its contents are never inspected by the
controller, only its presence (`nil` versus non-`nil`). -/
structure LinuxResources where
  deriving DecidableEq, Repr

/-- `cgroup.Spec`: the desired cgroup root and the Linux resource limits
(`Specs` is a pointer in the source, hence the `Option`). -/
structure Spec where
  Root : String
  Specs : Option LinuxResources
  deriving DecidableEq, Repr

/-- `validateCgroupSpec`: rejects a `nil` spec, an empty root, and `nil`
resource specs; it performs NO check on the shape of a non-empty root.
Returns the error, or `none` when the spec is accepted. -/
def validateCgroupSpec : Option Spec → Option String
  | none => some "cgroup spec validator: empty cgroup spec"
  | some cgroupSpec =>
    if cgroupSpec.Root = "" then some "cgroup spec validator: invalid cgroup root"
    else
      match cgroupSpec.Specs with
      | none => some "cgroup spec validator: empty linux resource spec"
      | some _ => none

/-- `Create`: validate, then ask the factory (the oracle `factoryNew`)
for a v1 hierarchy at the root. -/
def Create (factoryNew : String → Option LinuxResources → Except String Unit)
    (cgroupSpec : Option Spec) : Except String Unit :=
  match validateCgroupSpec cgroupSpec with
  | some e => .error ("cgroup create: failed to validate spec: " ++ e)
  | none =>
    match cgroupSpec with
    | none => .error "cgroup create: failed to validate spec"
    | some s =>
      match factoryNew s.Root s.Specs with
      | .error e => .error ("cgroup create: unable to create controller: " ++ e)
      | .ok _ => .ok ()

end Cgroup

/-! ## Credential-spec task resource
(`agent/taskresource/credentialspec/credentialspec_windows.go`) -/

namespace CredSpec

/-- Modelled from the spec: the resource statuses form the ordered set
`NONE < CREATED < REMOVED`; the Go enum is an integer iota, embedded as
the naturals 0, 1, 2 (the enum declaration itself is outside `src/`). -/
def CredentialSpecStatusNone : Nat := 0

/-- Modelled from the spec: see `CredentialSpecStatusNone`. -/
def CredentialSpecCreated : Nat := 1

/-- Modelled from the spec: see `CredentialSpecStatusNone`. -/
def CredentialSpecRemoved : Nat := 2

/-- Modelled from the spec: the base directory for materialised
credential-spec files (`<ResourceDir>`); the constant's definition is
outside `src/` and its exact value is irrelevant to the claims. -/
def CredentialSpecResourceDir : String := "C:/ProgramData/Amazon/ECS/data/credentialspecs"

/-- The in-memory state of `CredentialSpecResource`.  `time.Time` is a
natural number whose zero is Go's zero time; the `sync.Once` guarding
the terminal reason is the flag `terminalReasonDone`; the containers
attached to each required credential spec are kept as opaque names. -/
structure CredentialSpecResource where
  taskARN : String
  region : String
  executionCredentialsID : String
  createdAt : Nat
  desiredStatusUnsafe : Nat
  knownStatusUnsafe : Nat
  appliedStatus : Nat
  terminalReason : String
  terminalReasonDone : Bool
  requiredCredentialSpecs : List (String × List String)
  credSpecMap : List (String × String)
  deriving DecidableEq, Repr

/-- `GetTerminalReason`. -/
def GetTerminalReason (cs : CredentialSpecResource) : String :=
  cs.terminalReason

/-- `setTerminalReason`: `terminalReasonOnce.Do` runs its body only the
first time, so the first call latches both the reason and the flag. -/
def setTerminalReason (cs : CredentialSpecResource) (reason : String) :
    CredentialSpecResource :=
  if cs.terminalReasonDone then cs
  else { cs with terminalReason := reason, terminalReasonDone := true }

/-- `SetDesiredStatus`. -/
def SetDesiredStatus (cs : CredentialSpecResource) (status : Nat) :
    CredentialSpecResource :=
  { cs with desiredStatusUnsafe := status }

/-- `updateAppliedStatusUnsafe`: once the known status has caught up
with a pending applied status, the applied status is reset to `NONE`. -/
def updateAppliedStatusUnsafe (cs : CredentialSpecResource) (knownStatus : Nat) :
    CredentialSpecResource :=
  if cs.appliedStatus = CredentialSpecStatusNone then cs
  else if cs.appliedStatus ≤ knownStatus then
    { cs with appliedStatus := CredentialSpecStatusNone }
  else cs

/-- `SetKnownStatus`: assigns the argument to `knownStatusUnsafe`
unconditionally, then reconciles the applied status. -/
def SetKnownStatus (cs : CredentialSpecResource) (status : Nat) :
    CredentialSpecResource :=
  updateAppliedStatusUnsafe { cs with knownStatusUnsafe := status } status

/-- `SetAppliedStatus`: refuses (returning `false`) while a transition
is already in flight. -/
def SetAppliedStatus (cs : CredentialSpecResource) (status : Nat) :
    CredentialSpecResource × Bool :=
  if ¬ cs.appliedStatus = CredentialSpecStatusNone then (cs, false)
  else ({ cs with appliedStatus := status }, true)

/-- `SetCreatedAt`: a zero timestamp is ignored. -/
def SetCreatedAt (cs : CredentialSpecResource) (createdAt : Nat) :
    CredentialSpecResource :=
  if createdAt = 0 then cs else { cs with createdAt := createdAt }

/-- `GetTargetMapping`: the published runtime-consumable form for a full
source key, or an error when the key was never published. -/
def GetTargetMapping (cs : CredentialSpecResource) (credSpecInput : String) :
    Except String String :=
  match mapLookup cs.credSpecMap credSpecInput with
  | some target => .ok target
  | none => .error "unable to obtain credentialspec mapping"

/-- `updateCredSpecMapping`. -/
def updateCredSpecMapping (cs : CredentialSpecResource) (credSpecInput targetCredSpec : String) :
    CredentialSpecResource :=
  { cs with credSpecMap := mapInsert cs.credSpecMap credSpecInput targetCredSpec }

/-- Find the first occurrence of `sep` inside a character list,
returning the text before and after it (the core of Go's
`strings.SplitAfterN`/`strings.Replace` with count limits). -/
def substrSplit (sep : List Char) : List Char → Option (List Char × List Char)
  | [] => if strStartsWith [] sep then some ([], []) else none
  | x :: xs =>
    if strStartsWith (x :: xs) sep then some ([], (x :: xs).drop sep.length)
    else (substrSplit sep xs).map (fun p => (x :: p.1, p.2))

def credSpecPrefixChars : List Char := "credentialspec:".data

/-- `strings.SplitAfterN(credSpecStr, "credentialspec:", 2)[1]`: the text
after the first `credentialspec:` marker.  (When the marker is absent
the source would panic on the index; the embedding totalises that case
to the whole string — no claim exercises it.) -/
def credSpecValueOf (s : String) : String :=
  match substrSplit credSpecPrefixChars s.data with
  | some p => ⟨p.2⟩
  | none => s

/-- `strings.Replace(credSpecStr, "credentialspec:", "credentialspec=", 1)`. -/
def replaceCredSpecMarker (s : String) : String :=
  match substrSplit credSpecPrefixChars s.data with
  | some p => ⟨p.1 ++ "credentialspec=".data ++ p.2⟩
  | none => s

/-- Modelled from the spec: `s3.ParseS3ARN` (whose body is outside
`src/`) decomposes the ARN's resource field into `(bucket, key)` at the
first slash. -/
def parseS3ARN (s : String) : Except String (String × String) :=
  match Arn.parse s with
  | .error e => .error e
  | .ok a =>
    match substrSplit ['/'] a.Resource.data with
    | some p => .ok (⟨p.1⟩, ⟨p.2⟩)
    | none => .error "invalid s3 ARN"

/-- The external collaborators of `Create`, passed as oracles: the
credentials manager lookup, the S3 client factory, the S3 download plus
atomic write (`writeS3File`), the SSM parameter fetch, and the plain
file writeemulating `writeSSMFile`. -/
structure CreateEnv where
  credentialsFound : Bool
  s3ClientForBucket : String → Except String Unit
  writeS3File : String → String → String → Except String Unit
  ssmGetParam : String → Except String String
  writeSSMFile : String → String → Except String Unit

def unsupportedDependencyMsg : String :=
  "unsupported credentialspec ARN dependency, only s3/ssm ARNs are valid"

def credentialsNotFoundMsg : String :=
  "credentialspec resource: unable to find execution role credentials"

def notMappedMsg : String := "unable to obtain credentialspec mapping"

/-- The per-key loop body of `Create` (`credentialspec_windows.go:313-393`),
iterating the required credential specs in order.  Mirrors the source
exactly, including its two quirks: the `file://` arm publishes under the
FULL source key and then returns `nil` for the whole call
(line 321), while the s3/ssm arms publish under the STRIPPED
`credSpecValue` (lines 359 and 386). -/
def createLoop (env : CreateEnv) (cs : CredentialSpecResource) :
    List (String × List String) → CredentialSpecResource × Except String Unit
  | [] => (cs, .ok ())
  | (credSpecStr, _) :: rest =>
    let credSpecValue := credSpecValueOf credSpecStr
    if strStartsWith credSpecValue.data "file://".data then
      let dockerHostconfigSecOptCredSpec := replaceCredSpecMarker credSpecStr
      (updateCredSpecMapping cs credSpecStr dockerHostconfigSecOptCredSpec, .ok ())
    else
      match Arn.parse credSpecValue with
      | .error e => (setTerminalReason cs e, .error e)
      | .ok parsedARN =>
        if parsedARN.Service = "s3" then
          match parseS3ARN credSpecValue with
          | .error e => (setTerminalReason cs e, .error e)
          | .ok (bucket, key) =>
            match env.s3ClientForBucket bucket with
            | .error e =>
              (setTerminalReason cs e,
               .error ("unable to initialize s3 client for bucket " ++ bucket ++ ": " ++ e))
            | .ok _ =>
              let resourceBase := filepathBase parsedARN.Resource
              let localCredSpecFilePath :=
                CredentialSpecResourceDir ++ "/s3_" ++ cs.taskARN ++ "_" ++
                  resourceBase ++ ".json"
              match env.writeS3File bucket key localCredSpecFilePath with
              | .error e =>
                (setTerminalReason cs e,
                 .error ("unable to download s3 file " ++ key ++ " from bucket " ++
                   bucket ++ ": " ++ e))
              | .ok _ =>
                let target := "credentialspec=file://" ++ localCredSpecFilePath
                createLoop env (updateCredSpecMapping cs credSpecValue target) rest
        else if parsedARN.Service = "ssm" then
          let ssmParam := filepathBase parsedARN.Resource
          match env.ssmGetParam ssmParam with
          | .error e => (setTerminalReason cs e, .error e)
          | .ok ssmParamData =>
            let localCredSpecFilePath :=
              CredentialSpecResourceDir ++ "/ssm_" ++ cs.taskARN ++ "_" ++
                ssmParam ++ ".json"
            match env.writeSSMFile ssmParamData localCredSpecFilePath with
            | .error e => (setTerminalReason cs e, .error e)
            | .ok _ =>
              let target := "credentialspec=file://" ++ localCredSpecFilePath
              createLoop env (updateCredSpecMapping cs credSpecValue target) rest
        else
          (setTerminalReason cs unsupportedDependencyMsg, .error unsupportedDependencyMsg)

/-- `Create`: checks the execution credentials first, then walks the
required credential specs. -/
def Create (env : CreateEnv) (cs : CredentialSpecResource) :
    CredentialSpecResource × Except String Unit :=
  if ¬ env.credentialsFound then
    (setTerminalReason cs credentialsNotFoundMsg, .error credentialsNotFoundMsg)
  else createLoop env cs cs.requiredCredentialSpecs

/-- `Cleanup` / `clearCredentialSpec`: empties the mapping in memory. -/
def Cleanup (cs : CredentialSpecResource) : CredentialSpecResource :=
  { cs with credSpecMap := [] }

/-- `CredentialSpecResourceJSON`: pointer-typed fields become `Option`;
`CreatedAt` carries `json:"createdAt,omitempty"`, and `encoding/json`
omits a pointer field under `omitempty` exactly when the pointer is
`nil` — i.e. when the `Option` is `none`. -/
structure CredentialSpecResourceJSON where
  TaskARN : String
  CreatedAt : Option Nat
  DesiredStatus : Option Nat
  KnownStatus : Option Nat
  RequiredCredentialSpecs : Option (List (String × List String))
  CredSpecMap : List (String × String)
  ExecutionCredentialsID : String
  deriving DecidableEq, Repr

/-- Whether the serialised object carries a `createdAt` field at all. -/
def hasCreatedAtField (j : CredentialSpecResourceJSON) : Bool :=
  j.CreatedAt.isSome

/-- `MarshalJSON`: note that `CreatedAt` is `&createdAt` — the address
of a local copy — and therefore NEVER a nil pointer, whatever the value. -/
def MarshalJSON (cs : CredentialSpecResource) : CredentialSpecResourceJSON :=
  { TaskARN := cs.taskARN
    CreatedAt := some cs.createdAt
    DesiredStatus := some cs.desiredStatusUnsafe
    KnownStatus := some cs.knownStatusUnsafe
    RequiredCredentialSpecs := some cs.requiredCredentialSpecs
    CredSpecMap := cs.credSpecMap
    ExecutionCredentialsID := cs.executionCredentialsID }

/-- `UnmarshalJSON` applied to an already-decoded
`CredentialSpecResourceJSON`: restores the statuses, the non-zero
creation time, the required specs, the task ARN and the credentials ID —
and silently drops `temp.CredSpecMap` (`credentialspec_windows.go:514-537`
never reads it back). -/
def UnmarshalJSON (cs : CredentialSpecResource) (temp : CredentialSpecResourceJSON) :
    CredentialSpecResource :=
  let cs := match temp.DesiredStatus with
    | some s => SetDesiredStatus cs s
    | none => cs
  let cs := match temp.KnownStatus with
    | some s => SetKnownStatus cs s
    | none => cs
  let cs := match temp.CreatedAt with
    | some t => if ¬ t = 0 then SetCreatedAt cs t else cs
    | none => cs
  let cs := match temp.RequiredCredentialSpecs with
    | some r => { cs with requiredCredentialSpecs := r }
    | none => cs
  { cs with taskARN := temp.TaskARN, executionCredentialsID := temp.ExecutionCredentialsID }

/-- Iterated invocations of `Create` on the same resource, threading the
mutated receiver (the engine retries a failed transition on the same
object). -/
def createIter (env : CreateEnv) (cs : CredentialSpecResource) : Nat → CredentialSpecResource
  | 0 => cs
  | n + 1 => (Create env (createIter env cs n)).1

end CredSpec

/-! ## Generic helper instances and string lemmas -/

instance {ε α : Type} [DecidableEq ε] [DecidableEq α] : DecidableEq (Except ε α) :=
  fun a b =>
    match a, b with
    | .error e, .error f =>
      if h : e = f then .isTrue (by rw [h]) else .isFalse (by simp [h])
    | .ok x, .ok y =>
      if h : x = y then .isTrue (by rw [h]) else .isFalse (by simp [h])
    | .error _, .ok _ => .isFalse (by simp)
    | .ok _, .error _ => .isFalse (by simp)

theorem strEq_of_data (x y : String) (h : x.data = y.data) : x = y := by
  obtain ⟨xs⟩ := x
  obtain ⟨ys⟩ := y
  exact congrArg String.mk h

theorem strMk_data (x : String) : (⟨x.data⟩ : String) = x := by
  obtain ⟨xs⟩ := x
  rfl

theorem strData_mk (l : List Char) : (⟨l⟩ : String).data = l := rfl

/-! ## Concrete fixtures used by the claim theorems -/

/-- A freshly constructed credential-spec resource
(`NewCredentialSpecResource` leaves the status, timestamp and reason
fields at their zero values and the mapping empty). -/
def baseRes : CredSpec.CredentialSpecResource :=
  { taskARN := "taskArn"
    region := "us-west-2"
    executionCredentialsID := "exec-id"
    createdAt := 0
    desiredStatusUnsafe := 0
    knownStatusUnsafe := 0
    appliedStatus := 0
    terminalReason := ""
    terminalReasonDone := false
    requiredCredentialSpecs := []
    credSpecMap := [] }

/-- An environment in which every external collaborator succeeds. -/
def okEnv : CredSpec.CreateEnv :=
  { credentialsFound := true
    s3ClientForBucket := fun _ => .ok ()
    writeS3File := fun _ _ _ => .ok ()
    ssmGetParam := fun p => .ok ("data-" ++ p)
    writeSSMFile := fun _ _ => .ok () }

/-- A resource requiring two `file://` credential specs. -/
def twoFileRes : CredSpec.CredentialSpecResource :=
  { baseRes with
    requiredCredentialSpecs :=
      [("credentialspec:file://a.json", []), ("credentialspec:file://b.json", [])] }

def ssmArnKey : String := "credentialspec:arn:aws:ssm:us-west-2:123456789012:parameter/mySpec"

/-- A resource requiring a single SSM-ARN credential spec. -/
def ssmRes : CredSpec.CredentialSpecResource :=
  { baseRes with requiredCredentialSpecs := [(ssmArnKey, [])] }

/-- A resource whose single credential spec names a service that is
neither `s3` nor `ssm`. -/
def unsupportedRes : CredSpec.CredentialSpecResource :=
  { baseRes with
    requiredCredentialSpecs :=
      [("credentialspec:arn:aws:dynamodb:us-west-2:123456789012:table/foo", [])] }

/-- A resource carrying a published mapping and a zero creation time. -/
def roundTripOrig : CredSpec.CredentialSpecResource :=
  { baseRes with
    credSpecMap := [("credentialspec:file://x.json", "credentialspec=file://x.json")]
    desiredStatusUnsafe := 2
    knownStatusUnsafe := 1 }

/-! ## Claim theorems -/

/-- C4: `validateCgroupSpec` (and hence `Create`) rejects a nil spec, an
empty root and nil Linux resources, and accepts a prefixed root with
non-nil resources — but, contrary to the claim and to the intent of test
`TestValidateCgroupSpecWithNonECSPrefix`, it ACCEPTS the root
`/non-ecs/root` when the resources are non-nil: the function contains no
task-cgroup-prefix check at all. -/
theorem cgroup_validate_accepts_non_ecs_root :
    Cgroup.validateCgroupSpec none = some "cgroup spec validator: empty cgroup spec" ∧
    Cgroup.validateCgroupSpec (some ⟨"", some ⟨⟩⟩) =
      some "cgroup spec validator: invalid cgroup root" ∧
    Cgroup.validateCgroupSpec (some ⟨"/ecs/task-id", none⟩) =
      some "cgroup spec validator: empty linux resource spec" ∧
    Cgroup.validateCgroupSpec (some ⟨"/ecs/task-id", some ⟨⟩⟩) = none ∧
    Cgroup.validateCgroupSpec (some ⟨"/non-ecs/root", some ⟨⟩⟩) = none := by
  refine ⟨rfl, ?_, rfl, ?_, ?_⟩ <;> rfl

/-- C5 (counterexample): `arn:aws:s3:::bucket` splits into SIX sections
(`arn`, `aws`, `s3`, two empty ones, `bucket`), so `arn.Parse` accepts
it instead of failing with the not-enough-sections error. -/
theorem arn_parse_six_sections_counterexample :
    Arn.parse "arn:aws:s3:::bucket" = .ok ⟨"aws", "s3", "", "", "bucket"⟩ ∧
    Arn.parse "arn:aws:s3:::bucket" ≠ .error Arn.invalidSectionsMsg := by
  exact ⟨rfl, by decide⟩

/-- C5 (amended): `arn.Parse("not-an-arn")` fails with the
invalid-prefix error; `arn.Parse("arn:aws:s3:::bucket")` succeeds, since
that string has six colon-separated sections; a genuinely five-section
input such as `arn:aws:s3::bucket` fails with the not-enough-sections
error. -/
theorem arn_parse_rejection_amended :
    Arn.parse "not-an-arn" = .error Arn.invalidPrefixMsg ∧
    Arn.parse "arn:aws:s3:::bucket" = .ok ⟨"aws", "s3", "", "", "bucket"⟩ ∧
    Arn.parse "arn:aws:s3::bucket" = .error Arn.invalidSectionsMsg := by
  exact ⟨rfl, rfl, rfl⟩

/-- C7: when `LinkList` fails during a periodic reconciliation the
source only logs the error and carries on with the nil link slice
(`reconcileENIs` has no early return), so the removal pass deletes every
known interface: far from leaving the map unchanged, the failed tick
WIPES the manager's state. -/
theorem eni_reconcile_linklist_error_wipes_state :
    Eni.reconcileENIs [("00:0a:95:9d:68:16", "eth1")] [] true = [] ∧
    ([] : List (String × String)) ≠ [("00:0a:95:9d:68:16", "eth1")] := by
  exact ⟨rfl, by decide⟩

/-- C6 (counterexample): `SetKnownStatus` assigns its argument
unconditionally, so calling it with `NONE` on a resource whose known
status is `CREATED` DECREASES the known status. -/
theorem credspec_set_known_status_decrease_counterexample :
    (CredSpec.SetKnownStatus
        { baseRes with knownStatusUnsafe := CredSpec.CredentialSpecCreated }
        CredSpec.CredentialSpecStatusNone).knownStatusUnsafe <
      ({ baseRes with
          knownStatusUnsafe := CredSpec.CredentialSpecCreated } :
        CredSpec.CredentialSpecResource).knownStatusUnsafe := by
  decide

/-- C6 (amended): `SetKnownStatus(s)` sets `knownStatus` to exactly `s`
— it enforces no monotonicity, and `Initialize` itself relies on that to
reset a restored resource to `NONE` — while the applied status is
cleared to `NONE` precisely when a transition was in flight
(`appliedStatus ≠ NONE`) and has been caught up (`appliedStatus ≤ s`). -/
theorem credspec_set_known_status_amended (cs : CredSpec.CredentialSpecResource) (s : Nat) :
    (CredSpec.SetKnownStatus cs s).knownStatusUnsafe = s ∧
    (CredSpec.SetKnownStatus cs s).appliedStatus =
      (if ¬ cs.appliedStatus = CredSpec.CredentialSpecStatusNone ∧ cs.appliedStatus ≤ s
        then CredSpec.CredentialSpecStatusNone
        else cs.appliedStatus) := by
  unfold CredSpec.SetKnownStatus CredSpec.updateAppliedStatusUnsafe
  by_cases h0 : cs.appliedStatus = CredSpec.CredentialSpecStatusNone
  · simp [h0]
  · by_cases hle : cs.appliedStatus ≤ s
    · simp [h0, hle]
    · simp [h0, hle]

/-- C2 (counterexample): marshalling a resource whose `credSpecMap`
holds one published entry and whose `createdAt` is zero, then
unmarshalling into a fresh resource, does NOT restore `credSpecMap`
(`UnmarshalJSON` never reads it back), and the serialised object still
carries a `createdAt` field even though the timestamp is zero (the
pointer handed to the encoder is never nil). -/
theorem credspec_json_roundtrip_counterexample :
    (CredSpec.UnmarshalJSON baseRes (CredSpec.MarshalJSON roundTripOrig)).credSpecMap ≠
      roundTripOrig.credSpecMap ∧
    roundTripOrig.createdAt = 0 ∧
    CredSpec.hasCreatedAtField (CredSpec.MarshalJSON roundTripOrig) = true := by
  exact ⟨by decide, rfl, rfl⟩

/-- C2 (amended): the JSON round trip restores `taskARN`,
`executionCredentialsID`, `requiredCredentialSpecs`, `desiredStatus`,
`knownStatus`, and `createdAt` when originally non-zero — but
`credSpecMap` is dropped (the destination keeps its own map), and the
serialised JSON always contains `createdAt`, zero or not. -/
theorem credspec_json_roundtrip_amended
    (cs fresh : CredSpec.CredentialSpecResource) :
    (CredSpec.UnmarshalJSON fresh (CredSpec.MarshalJSON cs)).taskARN = cs.taskARN ∧
    (CredSpec.UnmarshalJSON fresh (CredSpec.MarshalJSON cs)).executionCredentialsID =
      cs.executionCredentialsID ∧
    (CredSpec.UnmarshalJSON fresh (CredSpec.MarshalJSON cs)).requiredCredentialSpecs =
      cs.requiredCredentialSpecs ∧
    (CredSpec.UnmarshalJSON fresh (CredSpec.MarshalJSON cs)).desiredStatusUnsafe =
      cs.desiredStatusUnsafe ∧
    (CredSpec.UnmarshalJSON fresh (CredSpec.MarshalJSON cs)).knownStatusUnsafe =
      cs.knownStatusUnsafe ∧
    (CredSpec.UnmarshalJSON fresh (CredSpec.MarshalJSON cs)).createdAt =
      (if cs.createdAt = 0 then fresh.createdAt else cs.createdAt) ∧
    (CredSpec.UnmarshalJSON fresh (CredSpec.MarshalJSON cs)).credSpecMap =
      fresh.credSpecMap ∧
    CredSpec.hasCreatedAtField (CredSpec.MarshalJSON cs) = true := by
  simp only [CredSpec.UnmarshalJSON, CredSpec.MarshalJSON, CredSpec.SetDesiredStatus,
    CredSpec.SetKnownStatus, CredSpec.updateAppliedStatusUnsafe, CredSpec.SetCreatedAt,
    CredSpec.hasCreatedAtField]
  refine ⟨?_, ?_, ?_, ?_, ?_, ?_, ?_, rfl⟩ <;>
    first
    | trivial
    | (split_ifs <;> simp_all)

/-- C1: `Create` neither publishes one entry per required key nor keys
every entry by the full source string.  With two `file://` sources it
returns success after materialising only ONE mapping entry (the
`return nil` at `credentialspec_windows.go:321` aborts the loop), and
with an SSM-ARN source it publishes under the STRIPPED value, so
`GetTargetMapping` on the full `credentialspec:<arn>` key fails even
though `Create` succeeded. -/
theorem credspec_create_early_return_and_stripped_keys :
    ((CredSpec.Create okEnv twoFileRes).2 = .ok () ∧
      (CredSpec.Create okEnv twoFileRes).1.credSpecMap.length = 1 ∧
      twoFileRes.requiredCredentialSpecs.length = 2) ∧
    ((CredSpec.Create okEnv ssmRes).2 = .ok () ∧
      CredSpec.GetTargetMapping (CredSpec.Create okEnv ssmRes).1 ssmArnKey =
        .error CredSpec.notMappedMsg ∧
      CredSpec.GetTargetMapping (CredSpec.Create okEnv ssmRes).1
          "arn:aws:ssm:us-west-2:123456789012:parameter/mySpec" =
        .ok ("credentialspec=file://" ++ CredSpec.CredentialSpecResourceDir ++
          "/ssm_taskArn_mySpec.json")) := by
  exact ⟨⟨rfl, rfl, rfl⟩, rfl, rfl, rfl⟩

/-! ### ENI reconciliation (C3) -/

theorem removeStale_cons (cur : List (String × String)) (q : String × String)
    (rest : List (String × String)) :
    Eni.removeStale (q :: rest) cur =
      if ((mapLookup cur q.1).isSome || ! Eni.isValidMACAddress q.1) = true
      then q :: Eni.removeStale rest cur
      else Eni.removeStale rest cur := by
  simp [Eni.removeStale, List.filter_cons]

theorem lookup_removeStale (cur : List (String × String)) :
    ∀ enis : List (String × String),
      (∀ p ∈ enis, Eni.isValidMACAddress p.1 = true) → ∀ k,
      mapLookup (Eni.removeStale enis cur) k =
        if (mapLookup cur k).isSome then mapLookup enis k else none := by
  intro enis
  induction enis with
  | nil =>
    intro _ k
    simp [Eni.removeStale, mapLookup]
  | cons q rest ih =>
    intro hv k
    obtain ⟨k1, v1⟩ := q
    have hvk1 : Eni.isValidMACAddress k1 = true := hv (k1, v1) (by simp)
    have hvrest : ∀ p ∈ rest, Eni.isValidMACAddress p.1 = true :=
      fun p hp => hv p (List.mem_cons_of_mem _ hp)
    rw [removeStale_cons]
    cases hcur : mapLookup cur k1 with
    | some w =>
      rw [if_pos (by simp [hcur])]
      by_cases hk : k1 = k
      · subst hk
        simp [mapLookup, hcur]
      · simp only [mapLookup, if_neg hk]
        exact ih hvrest k
    | none =>
      rw [if_neg (by simp [hcur, hvk1])]
      rw [ih hvrest k]
      by_cases hk : k1 = k
      · subst hk
        rw [hcur]
        simp
      · simp [mapLookup, hk]

theorem addNew_cons (acc : List (String × String)) (p : String × String)
    (rest : List (String × String)) :
    Eni.addNew acc (p :: rest) =
      Eni.addNew
        (if (mapLookup acc p.1).isSome then acc
         else
           match Eni.addDeviceWithMACAddress acc p.2 p.1 with
           | .ok m => m
           | .error _ => acc)
        rest := rfl

theorem lookup_addNew_some (cur : List (String × String)) :
    ∀ (acc : List (String × String)) (k : String) (v : String),
      mapLookup acc k = some v → mapLookup (Eni.addNew acc cur) k = some v := by
  induction cur with
  | nil =>
    intro acc k v h
    simpa [Eni.addNew] using h
  | cons p rest ih =>
    intro acc k v h
    rw [addNew_cons]
    apply ih
    by_cases hm : p.1 = k
    · rw [if_pos (by rw [hm, h]; rfl)]
      exact h
    · by_cases hex : (mapLookup acc p.1).isSome
      · rw [if_pos hex]; exact h
      · rw [if_neg hex]
        unfold Eni.addDeviceWithMACAddress
        split_ifs <;> simp [mapLookup_mapInsert_ne _ _ _ _ hm, h]

theorem lookup_addNew_none (cur : List (String × String))
    (hdev : ∀ p ∈ cur, strStartsWith p.2.data Eni.ethPrefixStr.data = true) :
    ∀ (acc : List (String × String)) (k : String),
      mapLookup acc k = none →
      mapLookup (Eni.addNew acc cur) k =
        (match mapLookup cur k with
         | some d => if Eni.isValidMACAddress k then some d else none
         | none => none) := by
  induction cur with
  | nil =>
    intro acc k h
    simpa [Eni.addNew, mapLookup] using h
  | cons q rest ih =>
    intro acc k h
    obtain ⟨m, d⟩ := q
    have hdevm : strStartsWith d.data Eni.ethPrefixStr.data = true := hdev (m, d) (by simp)
    have hdevrest : ∀ p ∈ rest, strStartsWith p.2.data Eni.ethPrefixStr.data = true :=
      fun p hp => hdev p (List.mem_cons_of_mem _ hp)
    rw [addNew_cons]
    by_cases hm : m = k
    · subst hm
      rw [if_neg (by simp [h])]
      by_cases c2 : Eni.isValidMACAddress m = true
      · have hstep :
            (match Eni.addDeviceWithMACAddress acc d m with
             | .ok m' => m'
             | .error _ => acc) = mapInsert acc m d := by
          unfold Eni.addDeviceWithMACAddress Eni.isValidDevice
          rw [if_neg (by simp [hdevm]), if_neg (by simp [c2])]
        rw [hstep]
        rw [lookup_addNew_some rest _ _ _ (mapLookup_mapInsert_self acc m d)]
        simp [mapLookup, c2]
      · have hstep :
            (match Eni.addDeviceWithMACAddress acc d m with
             | .ok m' => m'
             | .error _ => acc) = acc := by
          unfold Eni.addDeviceWithMACAddress Eni.isValidDevice
          rw [if_neg (by simp [hdevm]), if_pos (by simp [c2])]
        rw [hstep]
        rw [ih hdevrest acc m h]
        cases hrm : mapLookup rest m with
        | none => simp [mapLookup, c2]
        | some d2 => simp [mapLookup, c2, hrm]
    · have hstep :
          mapLookup
            (if (mapLookup acc m).isSome then acc
             else
               match Eni.addDeviceWithMACAddress acc d m with
               | .ok m' => m'
               | .error _ => acc)
            k = none := by
        split_ifs
        · exact h
        · unfold Eni.addDeviceWithMACAddress Eni.isValidDevice
          split_ifs <;> simp [mapLookup_mapInsert_ne _ _ _ _ hm, h]
      rw [ih hdevrest _ k hstep]
      simp [mapLookup, hm]

theorem buildState_dev_aux (ls : List Eni.Link) :
    ∀ st : List (String × String),
      (∀ p ∈ st, strStartsWith p.2.data Eni.ethPrefixStr.data = true) →
      ∀ p ∈ ls.foldl
          (fun state l =>
            if strStartsWith l.name.data Eni.ethPrefixStr.data then mapInsert state l.mac l.name
            else state)
          st,
        strStartsWith p.2.data Eni.ethPrefixStr.data = true := by
  induction ls with
  | nil => intro st hst p hp; exact hst p hp
  | cons l rest ih =>
    intro st hst p hp
    simp only [List.foldl_cons] at hp
    by_cases hl : strStartsWith l.name.data Eni.ethPrefixStr.data = true
    · rw [if_pos hl] at hp
      refine ih (mapInsert st l.mac l.name) ?_ p hp
      intro q hq
      rcases mem_mapInsert st l.mac l.name q hq with h | h
      · rw [h]; exact hl
      · exact hst q h
    · rw [if_neg hl] at hp
      exact ih st hst p hp

theorem buildState_dev (links : List Eni.Link) :
    ∀ p ∈ Eni.buildState links, strStartsWith p.2.data Eni.ethPrefixStr.data = true :=
  buildState_dev_aux links [] (by simp)

/-- C3 (counterexample): a MAC whose kernel device name changed does NOT
get the new name: with `eth1` recorded for the MAC and the kernel now
reporting `eth2`, reconciliation leaves the old record untouched (the
addition pass skips MACs that already exist and there is no update
pass). -/
theorem eni_reconcile_stale_name_counterexample :
    Eni.reconcileENIs [("00:0a:95:9d:68:16", "eth1")] [⟨"eth2", "00:0a:95:9d:68:16"⟩] false =
      [("00:0a:95:9d:68:16", "eth1")] ∧
    ("eth1" : String) ≠ "eth2" := by
  exact ⟨rfl, by decide⟩

/-- C3 (amended): after a reconciliation with a successful kernel link
enumeration, provided every stored MAC is valid (the add paths enforce
this), the map's key set is the kernel-reported eth-prefixed link set
restricted to parseable MACs: a stored MAC absent from the kernel set is
removed, a new kernel MAC with a parseable address is added under its
kernel device name, but an already-known MAC KEEPS its previously
recorded device name, and a kernel pair whose MAC fails validation is
not added. -/
theorem eni_reconcile_amended_correct (enis : List (String × String))
    (links : List Eni.Link)
    (hv : ∀ p ∈ enis, Eni.isValidMACAddress p.1 = true) (mac : String) :
    mapLookup (Eni.reconcileENIs enis links false) mac =
      (match mapLookup (Eni.buildState links) mac with
       | none => none
       | some dev =>
         match mapLookup enis mac with
         | some old => some old
         | none => if Eni.isValidMACAddress mac then some dev else none) := by
  unfold Eni.reconcileENIs
  have hr := lookup_removeStale (Eni.buildState links) enis hv mac
  cases hc : mapLookup (Eni.buildState links) mac with
  | none =>
    rw [hc] at hr
    simp only [Option.isSome_none, Bool.false_eq_true, if_false] at hr
    rw [lookup_addNew_none (Eni.buildState links) (buildState_dev links) _ mac hr, hc]
  | some dev =>
    rw [hc] at hr
    simp only [Option.isSome_some, if_true] at hr
    cases he : mapLookup enis mac with
    | some old =>
      rw [he] at hr
      rw [lookup_addNew_some (Eni.buildState links) _ mac old hr]
    | none =>
      rw [he] at hr
      rw [lookup_addNew_none (Eni.buildState links) (buildState_dev links) _ mac hr, hc]

/-- C3 witness: the amended reconciliation theorem evaluated at a
concrete state — the known MAC keeps `eth1`, the freshly attached MAC
appears with its kernel name `eth3`. -/
theorem eni_reconcile_amended_correct_witness :
    Eni.isValidMACAddress "00:0a:95:9d:68:16" = true ∧
    mapLookup
        (Eni.reconcileENIs [("00:0a:95:9d:68:16", "eth1")]
          [⟨"eth2", "00:0a:95:9d:68:16"⟩, ⟨"eth3", "02:42:ac:11:00:02"⟩] false)
        "02:42:ac:11:00:02" =
      some "eth3" := by
  refine ⟨by decide, ?_⟩
  have h := eni_reconcile_amended_correct [("00:0a:95:9d:68:16", "eth1")]
    [⟨"eth2", "00:0a:95:9d:68:16"⟩, ⟨"eth3", "02:42:ac:11:00:02"⟩]
    (by decide) "02:42:ac:11:00:02"
  simpa using h

/-! ### ARN round trip (C8) -/

theorem parse_ok_arnString (s : String) (a : Arn.ARN) (h : Arn.parse s = .ok a) :
    Arn.arnString a = s := by
  unfold Arn.parse at h
  split at h
  case isFalse => exact absurd h (by simp)
  case isTrue hpre =>
    obtain ⟨rest, hrest⟩ := (strStartsWith_iff s.data Arn.arnPrefixChars).mp hpre
    have hsp : splitNChar ':' 6 s.data = ['a', 'r', 'n'] :: splitNChar ':' 5 rest := by
      rw [hrest]
      exact splitNChar_block ':' 4 ['a', 'r', 'n'] rest (by decide)
    rw [hsp] at h
    have hjoin := joinSep_splitNChar ':' 4 rest
    rcases hL : splitNChar ':' 5 rest with _ | ⟨p, _ | ⟨sv, _ | ⟨r, _ | ⟨acc, _ | ⟨res, _ | ⟨x, tail⟩⟩⟩⟩⟩⟩ <;>
      rw [hL] at h <;> simp at h
    rw [hL] at hjoin
    simp only [joinSep] at hjoin
    subst h
    apply strEq_of_data
    rw [Arn.arnString_data, hrest]
    simp only [strData_mk]
    rw [hjoin]
    rfl

theorem arnString_parse_ok (a : Arn.ARN) (h1 : ':' ∉ a.Partition.data)
    (h2 : ':' ∉ a.Service.data) (h3 : ':' ∉ a.Region.data) (h4 : ':' ∉ a.AccountID.data) :
    Arn.parse (Arn.arnString a) = .ok a := by
  have hdata := Arn.arnString_data a
  have hpre : strStartsWith (Arn.arnString a).data Arn.arnPrefixChars = true := by
    rw [hdata]
    exact strStartsWith_append Arn.arnPrefixChars _
  have hsplit : splitNChar ':' 6 (Arn.arnString a).data =
      [['a', 'r', 'n'], a.Partition.data, a.Service.data, a.Region.data,
        a.AccountID.data, a.Resource.data] := by
    rw [hdata]
    rw [splitNChar_block ':' 4 ['a', 'r', 'n'] _ (by decide)]
    rw [splitNChar_block ':' 3 a.Partition.data _ h1]
    rw [splitNChar_block ':' 2 a.Service.data _ h2]
    rw [splitNChar_block ':' 1 a.Region.data _ h3]
    rw [splitNChar_block ':' 0 a.AccountID.data _ h4]
    rfl
  unfold Arn.parse
  rw [if_pos hpre, hsplit]

/-- C8: for every string `s` the parser accepts, `String(Parse(s)) = s`;
and for every ARN value whose first four fields are colon-free (the
resource field may contain colons), `Parse(a.String()) = a`. -/
theorem arn_parse_string_roundtrip :
    (∀ (s : String) (a : Arn.ARN), Arn.parse s = .ok a → Arn.arnString a = s) ∧
    (∀ a : Arn.ARN, ':' ∉ a.Partition.data → ':' ∉ a.Service.data → ':' ∉ a.Region.data →
      ':' ∉ a.AccountID.data → Arn.parse (Arn.arnString a) = .ok a) :=
  ⟨parse_ok_arnString, arnString_parse_ok⟩

/-- C8 witness: both round-trip directions evaluated at concrete ARNs,
one of them carrying a colon inside the resource field. -/
theorem arn_parse_string_roundtrip_witness :
    Arn.arnString ⟨"aws", "iam", "", "123456789012", "user/David"⟩ =
      "arn:aws:iam::123456789012:user/David" ∧
    Arn.parse (Arn.arnString ⟨"aws", "rds", "eu-west-1", "123456789012", "db:mysql-db"⟩) =
      .ok ⟨"aws", "rds", "eu-west-1", "123456789012", "db:mysql-db"⟩ :=
  ⟨arn_parse_string_roundtrip.1 "arn:aws:iam::123456789012:user/David"
      ⟨"aws", "iam", "", "123456789012", "user/David"⟩ rfl,
    arn_parse_string_roundtrip.2 ⟨"aws", "rds", "eu-west-1", "123456789012", "db:mysql-db"⟩
      (by decide) (by decide) (by decide) (by decide)⟩

/-! ### Terminal-reason latch (C9) -/

theorem setTerminalReason_of_done (cs : CredSpec.CredentialSpecResource) (r : String)
    (h : cs.terminalReasonDone = true) : CredSpec.setTerminalReason cs r = cs := by
  simp [CredSpec.setTerminalReason, h]

theorem setTerminalReason_fresh (cs : CredSpec.CredentialSpecResource) (r : String)
    (h : cs.terminalReasonDone = false) :
    CredSpec.setTerminalReason cs r =
      { cs with terminalReason := r, terminalReasonDone := true } := by
  simp [CredSpec.setTerminalReason, h]

theorem foldl_setTerminalReason_of_done (rs : List String) :
    ∀ cs : CredSpec.CredentialSpecResource, cs.terminalReasonDone = true →
      rs.foldl CredSpec.setTerminalReason cs = cs := by
  induction rs with
  | nil => intro cs _; rfl
  | cons r rest ih =>
    intro cs h
    rw [List.foldl_cons, setTerminalReason_of_done cs r h]
    exact ih cs h

theorem createIter_unsupported (n : Nat) :
    CredSpec.createIter okEnv unsupportedRes (n + 1) =
      { unsupportedRes with
        terminalReason := CredSpec.unsupportedDependencyMsg
        terminalReasonDone := true } := by
  induction n with
  | zero => rfl
  | succ m ih =>
    show (CredSpec.Create okEnv (CredSpec.createIter okEnv unsupportedRes (m + 1))).1 = _
    rw [ih]
    rfl

/-- C9: the terminal reason is first-write-wins — once a call stored a
reason, `GetTerminalReason` returns it after any sequence of later
`setTerminalReason` calls, each of which is a no-op — and, concretely,
repeatedly invoking `Create` on a resource whose ARN names the
unsupported `dynamodb` service keeps returning the unsupported-source
error while the latched reason never changes. -/
theorem credspec_terminal_reason_first_write_wins :
    (∀ (cs : CredSpec.CredentialSpecResource) (r : String) (rs : List String),
      cs.terminalReasonDone = false →
      CredSpec.GetTerminalReason
          (rs.foldl CredSpec.setTerminalReason (CredSpec.setTerminalReason cs r)) = r ∧
      ∀ r2 : String,
        CredSpec.setTerminalReason
            (rs.foldl CredSpec.setTerminalReason (CredSpec.setTerminalReason cs r)) r2 =
          rs.foldl CredSpec.setTerminalReason (CredSpec.setTerminalReason cs r)) ∧
    (∀ n : Nat,
      (CredSpec.Create okEnv (CredSpec.createIter okEnv unsupportedRes n)).2 =
        .error CredSpec.unsupportedDependencyMsg ∧
      CredSpec.GetTerminalReason (CredSpec.createIter okEnv unsupportedRes (n + 1)) =
        CredSpec.unsupportedDependencyMsg) := by
  constructor
  · intro cs r rs h
    have hset := setTerminalReason_fresh cs r h
    have hdone : (CredSpec.setTerminalReason cs r).terminalReasonDone = true := by
      rw [hset]
    have hfold := foldl_setTerminalReason_of_done rs _ hdone
    rw [hfold]
    exact ⟨by rw [hset]; rfl, fun r2 => setTerminalReason_of_done _ r2 hdone⟩
  · intro n
    constructor
    · cases n with
      | zero => rfl
      | succ m => rw [createIter_unsupported m]; rfl
    · rw [createIter_unsupported n]; rfl

/-- C9 witness: the latch evaluated on a fresh resource with two
overwrite attempts, and on the dynamodb resource after a second and
third `Create`. -/
theorem credspec_terminal_reason_first_write_wins_witness :
    baseRes.terminalReasonDone = false ∧
    CredSpec.GetTerminalReason
        (["later-a", "later-b"].foldl CredSpec.setTerminalReason
          (CredSpec.setTerminalReason baseRes "first-reason")) = "first-reason" ∧
    (CredSpec.Create okEnv (CredSpec.createIter okEnv unsupportedRes 1)).2 =
      .error CredSpec.unsupportedDependencyMsg ∧
    CredSpec.GetTerminalReason (CredSpec.createIter okEnv unsupportedRes 2) =
      CredSpec.unsupportedDependencyMsg := by
  refine ⟨rfl, ?_, ?_, ?_⟩
  · exact (credspec_terminal_reason_first_write_wins.1 baseRes "first-reason"
      ["later-a", "later-b"] rfl).1
  · exact (credspec_terminal_reason_first_write_wins.2 1).1
  · exact (credspec_terminal_reason_first_write_wins.2 1).2

/-! ### Event-path validation (C10) -/

/-- C10: the watcher hands the raw event path to `addDevice`, whose
`eth`-prefix check runs against that full path (the basename is computed
but only used afterwards); any event path that does not itself begin
with `eth` — such as the absolute `/sys/class/net/eth1` the watcher
delivers — yields the invalid-device error and leaves the map
unchanged. -/
theorem eni_add_device_full_path_check (enis : List (String × String))
    (linkByName : String → Except String String) (evtName : String)
    (h : strStartsWith evtName.data Eni.ethPrefixStr.data = false) :
    Eni.addDevice enis linkByName evtName = .error Eni.invalidDeviceMsg ∧
    Eni.fsnotifyHandleCreate enis linkByName evtName = enis := by
  have hd : Eni.addDevice enis linkByName evtName = .error Eni.invalidDeviceMsg := by
    unfold Eni.addDevice Eni.isValidDevice
    rw [if_pos (by simp [h])]
  refine ⟨hd, ?_⟩
  unfold Eni.fsnotifyHandleCreate
  rw [hd]

/-- C10 witness: the absolute watcher path evaluated against a one-entry
map and a netlink oracle that would happily return a MAC. -/
theorem eni_add_device_full_path_check_witness :
    strStartsWith "/sys/class/net/eth1".data Eni.ethPrefixStr.data = false ∧
    Eni.addDevice [("00:0a:95:9d:68:16", "eth0")] (fun _ => .ok "00:0a:95:9d:68:16")
        "/sys/class/net/eth1" = .error Eni.invalidDeviceMsg ∧
    Eni.fsnotifyHandleCreate [("00:0a:95:9d:68:16", "eth0")]
        (fun _ => .ok "00:0a:95:9d:68:16") "/sys/class/net/eth1" =
      [("00:0a:95:9d:68:16", "eth0")] := by
  refine ⟨by decide, ?_, ?_⟩
  · exact (eni_add_device_full_path_check _ _ _ (by decide)).1
  · exact (eni_add_device_full_path_check _ _ _ (by decide)).2
